import Mathlib

set_option autoImplicit false

/-!
Verification development for the go-IBLT-sz repository (`src/types.go`).

Bytes are modelled as `Nat` (values kept below 256 by construction where the
program produces them); Go `uint64` arithmetic is modelled as `Nat` reduced
modulo `2^64`; Go slices of bytes are `List Nat`; a possibly-nil `*Bucket` is
`Option Bucket`.  A Go runtime panic (out-of-bounds index, modulo by zero,
...) is modelled by a dedicated result constructor, as is non-termination of
the salted-index search loop (which the source only terminates "in high
probability"): the loop is given explicit fuel.
-/

namespace IBLT

/-- `2^64` truncation of Go `uint64` arithmetic. -/
def mask64 (n : Nat) : Nat := n % 18446744073709551616

/-- Go `uint64` addition. -/
def add64 (a b : Nat) : Nat := mask64 (a + b)

/-- Go 64-bit rotate left (operands assumed `< 2^64`). -/
def rotl64 (x n : Nat) : Nat := Nat.lor (mask64 (x <<< n)) (x >>> (64 - n))

/-- One SipHash round on the state quadruple `(v0, v1, v2, v3)`. -/
def sipRound (v : Nat × Nat × Nat × Nat) : Nat × Nat × Nat × Nat :=
  let v0 := add64 v.1 v.2.1
  let v1 := rotl64 v.2.1 13
  let v1 := Nat.xor v1 v0
  let v0 := rotl64 v0 32
  let v2 := add64 v.2.2.1 v.2.2.2
  let v3 := rotl64 v.2.2.2 16
  let v3 := Nat.xor v3 v2
  let v0 := add64 v0 v3
  let v3 := rotl64 v3 21
  let v3 := Nat.xor v3 v0
  let v2 := add64 v2 v1
  let v1 := rotl64 v1 17
  let v1 := Nat.xor v1 v2
  let v2 := rotl64 v2 32
  (v0, v1, v2, v3)

/-- Little-endian word value of a byte list. -/
def leWord (bs : List Nat) : Nat := bs.foldr (fun b acc => b + 256 * acc) 0

/-- Split a byte string into its full 8-byte blocks and the remainder. -/
def splitBlocks : List Nat → List (List Nat) × List Nat
  | b0 :: b1 :: b2 :: b3 :: b4 :: b5 :: b6 :: b7 :: rest =>
    let p := splitBlocks rest
    ([b0, b1, b2, b3, b4, b5, b6, b7] :: p.1, p.2)
  | rest => ([], rest)

/-- Absorb one 8-byte message word: `v3 ^= m`, two rounds, `v0 ^= m`. -/
def sipCompress (v : Nat × Nat × Nat × Nat) (m : Nat) : Nat × Nat × Nat × Nat :=
  let w := sipRound (sipRound (v.1, v.2.1, v.2.2.1, Nat.xor v.2.2.2 m))
  (Nat.xor w.1 m, w.2.1, w.2.2.1, w.2.2.2)

/-- SipHash-2-4 of a byte string under 64-bit keys `k0, k1`; model of
`siphash.Hash(k0, k1, p)` from the external `dchest/siphash` package
(out-of-scope collaborator per the design: an opaque keyed PRF). -/
def sipHashRaw (k0 k1 : Nat) (p : List Nat) : Nat :=
  let v0 := Nat.xor k0 0x736f6d6570736575
  let v1 := Nat.xor k1 0x646f72616e646f6d
  let v2 := Nat.xor k0 0x6c7967656e657261
  let v3 := Nat.xor k1 0x7465646279746573
  let bl := splitBlocks p
  let v := bl.1.foldl (fun v b => sipCompress v (leWord b)) (v0, v1, v2, v3)
  let lastWord := Nat.lor (mask64 (p.length <<< 56)) (leWord bl.2)
  let v := sipCompress v lastWord
  let v := (v.1, v.2.1, Nat.xor v.2.2.1 0xff, v.2.2.2)
  let w := sipRound (sipRound (sipRound (sipRound v)))
  Nat.xor (Nat.xor w.1 w.2.1) (Nat.xor w.2.2.1 w.2.2.2)

/-- Big-endian 8-byte serialization of a 64-bit value
(`binary.BigEndian.PutUint64`). -/
def beBytes8 (n : Nat) : List Nat :=
  [(n >>> 56) % 256, (n >>> 48) % 256, (n >>> 40) % 256, (n >>> 32) % 256,
   (n >>> 24) % 256, (n >>> 16) % 256, (n >>> 8) % 256, n % 256]

/-- Hash key constants `key0 = 465`, `key1 = 629` from the source. -/
def key0 : Nat := 465

/-- See `key0`. -/
def key1 : Nat := 629

/-- `sipHash` from the source: the keyed 64-bit digest serialized big-endian
as 8 bytes. -/
def sipHash (b : List Nat) : List Nat := beBytes8 (sipHashRaw key0 key1 b)

/-- Outcome of running a piece of the Go program.  `ok` is normal return;
`err msg a` is a returned non-nil `error` (the value `a` is the state the
caller still holds, since Go errors do not roll back in-place mutation);
`panic` is a Go runtime panic (out-of-bounds index, modulo by zero);
`oot` means the modelling fuel for a possibly non-terminating loop ran out. -/
inductive Res (α : Type) where
  | ok : α → Res α
  | err : String → α → Res α
  | panic : Res α
  | oot : Res α
  deriving DecidableEq, Repr

/-- `true` iff the outcome is a returned Go `error`. -/
def Res.isErr {α : Type} : Res α → Bool
  | .err _ _ => true
  | _ => false

/-- `xor(dst, src)` from the source: `dst[i] = dst[i] ^ src[i]` over the
indices of `dst`.  The source comment demands `len(dst) <= len(src)`; when the
caller violates that, `src[i]` is out of bounds and Go panics, modelled by
`none`. -/
def bxor : List Nat → List Nat → Option (List Nat)
  | [], _ => some []
  | _ :: _, [] => none
  | d :: ds, s :: ss => (bxor ds ss).map (fun r => Nat.xor d s :: r)

/-- `empty(b)` from the source: every byte is zero. -/
def bytesEmpty (b : List Nat) : Bool := b.all (fun v => v == 0)

/-- `equalPrefix(a, b)` from the source: walks `a`, comparing against `b` at
the same index; a mismatch returns `false` before any further access, while
running past the end of `b` is an out-of-bounds panic (`none`).  The source
comment demands `len(a) <= len(b)`. -/
def equalPrefix : List Nat → List Nat → Option Bool
  | [], _ => some true
  | _ :: _, [] => none
  | a :: as, b :: bs => if a ≠ b then some false else equalPrefix as bs

/-- `Bucket` from the source: XOR of all data inserted at this cell, XOR of
their digests (truncated to the table's hash length), and a signed counter. -/
structure Bucket where
  dataSum : List Nat
  hashSum : List Nat
  count : Int
  deriving DecidableEq, Repr

/-- `NewBucket(dataLen, hashLen)`: zero-filled sums, zero count. -/
def NewBucket (dataLen hashLen : Nat) : Bucket :=
  { dataSum := List.replicate dataLen 0
    hashSum := List.replicate hashLen 0
    count := 0 }

namespace Bucket

/-- `(*Bucket).xor(a)`: XOR `a`'s sums into `b`'s componentwise. -/
def bxor (b a : Bucket) : Option Bucket := do
  let ds ← IBLT.bxor b.dataSum a.dataSum
  let hs ← IBLT.bxor b.hashSum a.hashSum
  pure { b with dataSum := ds, hashSum := hs }

/-- `(*Bucket).subtract(a)`: XOR-merge, then subtract the counter. -/
def subtract (b a : Bucket) : Option Bucket := do
  let m ← b.bxor a
  pure { m with count := m.count - a.count }

/-- `(*Bucket).operate(d, sign)`: XOR `d` into `dataSum`, XOR the 8-byte
digest of `d` into `hashSum` (only the first `len(hashSum)` bytes are read,
and the access is out of bounds when `len(hashSum) > 8`), and step the
counter by `±1`. -/
def operate (b : Bucket) (d : List Nat) (sign : Bool) : Option Bucket := do
  let ds ← IBLT.bxor b.dataSum d
  let hs ← IBLT.bxor b.hashSum (sipHash d)
  pure { dataSum := ds, hashSum := hs
         count := if sign then b.count + 1 else b.count - 1 }

/-- `Bucket.copy()` at the value level (the pointer-level aliasing of
`hashSum` is modelled separately by the heap model below): the returned
bucket has equal field values. -/
def copy (b : Bucket) : Bucket :=
  { dataSum := b.dataSum, hashSum := b.hashSum, count := b.count }

/-- `Bucket.pure()`: counter is `±1` and `hashSum` is a prefix of the digest
of `dataSum`.  The prefix comparison panics when `len(hashSum) > 8` and no
mismatch occurs in the first 8 bytes. -/
def pureB (b : Bucket) : Res Bool :=
  if b.count = 1 ∨ b.count = -1 then
    match equalPrefix b.hashSum (sipHash b.dataSum) with
    | some r => .ok r
    | none => .panic
  else .ok false

/-- `Bucket.empty()`: zero count and all-zero sums. -/
def emptyB (b : Bucket) : Bool :=
  b.count == 0 && bytesEmpty b.hashSum && bytesEmpty b.dataSum

end Bucket

/-- One side of the symmetric difference (`byteSet` from the source).  The
cuckoo prefilter is an out-of-scope external collaborator ("the slice is
authoritative; the prefilter is advisory" — its `Lookup` has no false
negatives for inserted members), so membership is modelled exactly on the
slice. -/
def bsTest (s : List (List Nat)) (b : List Nat) : Bool :=
  s.any (fun e => e == b)

/-- `byteSet.insert(b)`: append only when not already a member. -/
def bsInsert (s : List (List Nat)) (b : List Nat) : List (List Nat) :=
  if bsTest s b then s else s ++ [b]

/-- `byteSet.delete(b)`: remove the first member equal to `b`; when no member
matches, the scan leaves `idx = 0` and the head is removed (in the program
this branch is dead: `delete` is only called after `test` succeeded; on an
empty set Go would panic on the slice expression). -/
def bsDelete (s : List (List Nat)) (b : List Nat) : List (List Nat) :=
  s.eraseIdx ((s.findIdx? (fun e => e == b)).getD 0)

/-- `Diff` from the source: the two recovered sides of the symmetric
difference. -/
structure Diff where
  Alpha : List (List Nat)
  Beta : List (List Nat)
  deriving DecidableEq, Repr

/-- `NewDiff(bktNum)`: two empty sets (`bktNum` only sizes the advisory
prefilter, which is not part of the model). -/
def NewDiff (_bktNum : Nat) : Diff := { Alpha := [], Beta := [] }

/-- `(*Diff).encode(b)`: record one pure bucket.  `count = 1` goes to
`Alpha` unless the data is already in `Beta`, in which case it is removed
from `Beta` and a `repetitive` error is returned; `count = -1` mirrors. -/
def Diff.encode (d : Diff) (b : Bucket) : Diff × Option String :=
  let cpy := b.dataSum
  if b.count = 1 then
    if bsTest d.Beta cpy then
      ({ d with Beta := bsDelete d.Beta cpy }, some "repetitive bytes found in beta")
    else
      ({ d with Alpha := bsInsert d.Alpha cpy }, none)
  else if b.count = -1 then
    if bsTest d.Alpha cpy then
      ({ d with Alpha := bsDelete d.Alpha cpy }, some "repetitive bytes found in alpha")
    else
      ({ d with Beta := bsInsert d.Beta cpy }, none)
  else (d, none)

/-- `Table` from the source.  `buckets` is the fixed-length array of
possibly-nil cells; `bitsSet` is the scratch bitset that `index` fills with
the element's cell indices (modelled as a `Finset`, with ascending-order
iteration where the source iterates `NextSet`). -/
structure Table where
  BktNum : Nat
  DataLen : Nat
  HashLen : Nat
  HashNum : Nat
  buckets : List (Option Bucket)
  bitsSet : Finset Nat
  deriving DecidableEq

/-- `NewTable(buckets, dataLen, hashLen, hashNum)`: all cells nil, scratch
bitset empty.  No parameter is validated. -/
def NewTable (bkts dataLen hashLen hashNum : Nat) : Table :=
  { BktNum := bkts
    DataLen := dataLen
    HashLen := hashLen
    HashNum := hashNum
    buckets := List.replicate bkts none
    bitsSet := ∅ }

/-- The salted-index search loop inside `Table.index`: starting from
`tries = 1`, hash `d` with the salt folded into the second key, step the salt
on every attempt, reduce mod `B`, and accept the index only when new, until
`k` distinct indices are collected.  The source assumes termination "in high
probability"; the model makes the remaining attempts explicit fuel.  `% 0`
is a Go runtime panic. -/
def indexLoop (d : List Nat) (B k : Nat) :
    Nat → Nat → Nat → Finset Nat → Res (Finset Nat)
  | 0, _, _, _ => .oot
  | fuel + 1, tries, i, acc =>
    if i < k then
      if B = 0 then .panic
      else
        let idx := sipHashRaw key0 (key1 + tries) d % B
        if idx ∈ acc then indexLoop d B k fuel (tries + 1) i acc
        else indexLoop d B k fuel (tries + 1) (i + 1) (insert idx acc)
    else .ok acc

namespace Table

/-- `Table.index(d)`: reject a length mismatch before touching any state,
then clear the scratch bitset and run the salted search loop. -/
def index (t : Table) (d : List Nat) (ifuel : Nat) : Res Table :=
  if d.length ≠ t.DataLen then
    .err "insert byte length mismatches base data length" t
  else
    match indexLoop d t.BktNum t.HashNum ifuel 1 0 ∅ with
    | .ok s => .ok { t with bitsSet := s }
    | .err m _ => .err m t
    | .panic => .panic
    | .oot => .oot

/-- `Table.operateBucket(idx, d, sign)`: create the cell lazily if nil, then
apply the signed bucket update.  An index beyond the array is a Go panic. -/
def operateBucket (t : Table) (idx : Nat) (d : List Nat) (sign : Bool) :
    Res Table :=
  match t.buckets.get? idx with
  | none => .panic
  | some cell =>
    match (cell.getD (NewBucket t.DataLen t.HashLen)).operate d sign with
    | some b => .ok { t with buckets := t.buckets.set idx (some b) }
    | none => .panic

/-- The `NextSet` iteration inside `Table.operate`: apply `operateBucket` at
every set index in ascending order. -/
def foldOp (t : Table) (l : List Nat) (d : List Nat) (sign : Bool) :
    Res Table :=
  match l with
  | [] => .ok t
  | i :: is =>
    match t.operateBucket i d sign with
    | .ok t' => foldOp t' is d sign
    | r => r

/-- `Table.operate(d, sign)`: copy the element, compute its index set, then
update each indexed cell, iterating the set bits in ascending order
(`NextSet`); since every set bit was produced mod `BktNum`, the ascending
iteration is the filtered range below. -/
def operate (t : Table) (d : List Nat) (sign : Bool) (ifuel : Nat) :
    Res Table :=
  let cpy := d
  match t.index cpy ifuel with
  | .ok t1 =>
    foldOp t1 ((List.range t1.BktNum).filter (fun j => j ∈ t1.bitsSet)) cpy sign
  | .err m t' => .err m t'
  | .panic => .panic
  | .oot => .oot

/-- `Table.Insert(d)`. -/
def Insert (t : Table) (d : List Nat) (ifuel : Nat) : Res Table :=
  t.operate d true ifuel

/-- `Table.Delete(d)`. -/
def Delete (t : Table) (d : List Nat) (ifuel : Nat) : Res Table :=
  t.operate d false ifuel

/-- `Table.check(a)`: the five shape comparisons before subtraction. -/
def check (t a : Table) : Option String :=
  if t.BktNum ≠ a.BktNum then some "subtract table mismatches bucket number"
  else if t.DataLen ≠ a.DataLen then
    some "subtract table mismatches data length"
  else if t.HashLen ≠ a.HashLen then
    some "subtract table mismatches hash length"
  else if t.HashNum ≠ a.HashNum then
    some "subtract table mismatches number of hash functions"
  else if t.buckets.length ≠ a.buckets.length then
    some "illegally appended buckets"
  else none

/-- The per-cell body of `Table.Subtract`: both present → bucket subtract
(panics on mismatched sum lengths); only the operand present → graft a copy
with negated count; otherwise leave the cell as is. -/
def subCell : Option Bucket → Option Bucket → Option (Option Bucket)
  | some tb, some ab => (tb.subtract ab).map some
  | none, some ab =>
    let c := ab.copy
    some (some { c with count := -c.count })
  | tb, none => some tb

/-- Cell-wise traversal for `Table.Subtract` over the receiver's indices;
running past the end of the operand's array is an out-of-bounds panic. -/
def subCells : List (Option Bucket) → List (Option Bucket) →
    Option (List (Option Bucket))
  | [], _ => some []
  | _ :: _, [] => none
  | t :: ts, a :: as_ => do
    let c ← subCell t a
    let r ← subCells ts as_
    pure (c :: r)

/-- `Table.Subtract(a)`: `t = t - a` after the shape check; the operand is
only read. -/
def Subtract (t a : Table) : Res Table :=
  match check t a with
  | some m => .err m t
  | none =>
    match subCells t.buckets a.buckets with
    | some bs => .ok { t with buckets := bs }
    | none => .panic

/-- `Table.Copy()`: fresh table with value-copies of the non-nil cells. -/
def Copy (t : Table) : Table :=
  { NewTable t.BktNum t.DataLen t.HashLen t.HashNum with
    buckets := t.buckets.map (fun cell => cell.map Bucket.copy) }

/-- `Table.empty()`: every cell is nil or all-zero. -/
def empty (t : Table) : Bool :=
  t.buckets.all (fun cell =>
    match cell with
    | none => true
    | some b => b.emptyB)

end Table

/-- `binary.BigEndian.PutUint16` of `uint16(n)`: the low 16 bits of `n`,
big-endian. -/
def u16be (n : Nat) : List Nat := [n % 65536 / 256, n % 256]

/-- Go `uint16(count)` for a signed `count`: its low 16 bits (two's
complement). -/
def intToU16 (c : Int) : Nat := (c % 65536).toNat

/-- Go `int(int16(n))` for `n < 65536`: reinterpret as a signed 16-bit
value. -/
def int16val (n : Nat) : Int := if n < 32768 then (n : Int) else (n : Int) - 65536

/-- The record loop of `Table.Serialize`, carrying the running cell index:
nil and all-zero cells are skipped; every other cell contributes
`idx · count · dataSum · hashSum`. -/
def serializeBody : Nat → List (Option Bucket) → List Nat
  | _, [] => []
  | idx, cell :: rest =>
    (match cell with
     | some b =>
       if b.emptyB then []
       else u16be idx ++ u16be (intToU16 b.count) ++ b.dataSum ++ b.hashSum
     | none => []) ++ serializeBody (idx + 1) rest

/-- `Table.Serialize()`: the four 16-bit header fields followed by one record
per non-nil, non-empty cell.  (The Go signature also returns an `error` that
is always nil.) -/
def Serialize (t : Table) : List Nat :=
  u16be t.BktNum ++ u16be t.DataLen ++ u16be t.HashLen ++ u16be t.HashNum ++
    serializeBody 0 t.buckets

/-- `binary.BigEndian.Uint16(reader.Next(2))`: `none` models the Go panic
when fewer than 2 bytes remain. -/
def readU16 : List Nat → Option (Nat × List Nat)
  | a :: b :: rest => some (a * 256 + b, rest)
  | _ => none

/-- The record loop of `Deserialize`: stop cleanly only when the buffer is
exhausted exactly before an index field; a 1-byte remainder or a missing
count field panics inside `Uint16`, an index beyond the bucket array panics
on the assignment, and short `dataSum`/`hashSum` reads are silently
zero-padded by `copy`. -/
def deserializeLoop (dataLen hashLen : Nat) :
    Nat → Table → List Nat → Res Table
  | 0, _, _ => .oot
  | fuel + 1, table, rest =>
    match rest with
    | [] => .ok table
    | [_] => .panic
    | a :: b :: rest2 =>
      let idx := a * 256 + b
      if idx < table.buckets.length then
        match rest2 with
        | c :: d :: rest3 =>
          let bkt : Bucket :=
            { dataSum :=
                rest3.take dataLen ++
                  List.replicate (dataLen - (rest3.take dataLen).length) 0
              hashSum :=
                (rest3.drop dataLen).take hashLen ++
                  List.replicate
                    (hashLen - ((rest3.drop dataLen).take hashLen).length) 0
              count := int16val (c * 256 + d) }
          deserializeLoop dataLen hashLen fuel
            { table with buckets := table.buckets.set idx (some bkt) }
            ((rest3.drop dataLen).drop hashLen)
        | _ => .panic
      else .panic

/-- `Deserialize(b)`: parse the header (panicking if the buffer is exhausted
mid-header), build a fresh table, then run the record loop.  The function has
no error return path: its Go `error` result is always nil. -/
def Deserialize (b : List Nat) : Res Table :=
  match readU16 b with
  | none => .panic
  | some (bktNum, r1) =>
    match readU16 r1 with
    | none => .panic
    | some (dataLen, r2) =>
      match readU16 r2 with
      | none => .panic
      | some (hashLen, r3) =>
        match readU16 r3 with
        | none => .panic
        | some (hashNum, r4) =>
          deserializeLoop dataLen hashLen (b.length + 1)
            (NewTable bktNum dataLen hashLen hashNum) r4

/-- The scan loop of `Table.enqueuePure` over ascending cell indices,
carrying the duplicate-suppression mask and the FIFO queue.  The queue holds
cell indices: in Go it holds pointers to the cells, and during decoding a
cell's pointer is never replaced (only mutated in place), so a queued pointer
always equals the cell at its index. -/
def enqueueLoop (ifuel : Nat) :
    Table → Finset Nat → List Nat → List Nat → Res (Table × List Nat)
  | t, _, q, [] => .ok (t, q)
  | t, mask, q, i :: is =>
    match t.buckets.get? i with
    | some (some b) =>
      if i ∈ mask then enqueueLoop ifuel t mask q is
      else
        match b.pureB with
        | .ok true =>
          match t.index b.dataSum ifuel with
          | .ok t' =>
            if i ∈ t'.bitsSet then
              enqueueLoop ifuel t' (mask ∪ t'.bitsSet) (q ++ [i]) is
            else
              enqueueLoop ifuel t' mask q is
          | .err m t' => .err m (t', q)
          | .panic => .panic
          | .oot => .oot
        | .ok false => enqueueLoop ifuel t mask q is
        | _ => .panic
    | _ => enqueueLoop ifuel t mask q is

/-- `Table.enqueuePure(pure)`: scan all cells in ascending order, skipping
nil cells, masked cells, non-pure cells and false pures. -/
def enqueuePure (t : Table) (ifuel : Nat) : Res (Table × List Nat) :=
  enqueueLoop ifuel t ∅ [] (List.range t.buckets.length)

/-- Outcome of draining the pure queue once (the inner loop of `Decode`). -/
inductive InnerRes where
  | done : Table → Diff → InnerRes
  | stop : Table → Diff → InnerRes
  | fail : String → Table → Diff → InnerRes
  | panicI : InnerRes
  | ootI : InnerRes

/-- The inner loop of `Decode`: dequeue a cell, record its current contents
into the diff (on an `encode` error the source returns `(diff, nil)` at once,
modelled by `stop`), then peel by applying the inverse operation to all of
the element's cells. -/
def decodeInner (ifuel : Nat) :
    Table → Diff → List Nat → InnerRes
  | t, diff, [] => .done t diff
  | t, diff, i :: rest =>
    match t.buckets.get? i with
    | some (some b) =>
      let r := diff.encode b
      match r.2 with
      | some _ => .stop t r.1
      | none =>
        match t.operate b.dataSum (decide (b.count < 0)) ifuel with
        | .ok t' => decodeInner ifuel t' r.1 rest
        | .err m t' => .fail m t' r.1
        | .panic => .panicI
        | .oot => .ootI
    | _ => .panicI

/-- The outer loop of `Decode`: drain the queue, rescan for new pures, and
when a rescan finds none check that every cell is empty. -/
def decodeOuter (ifuel : Nat) :
    Table → Diff → List Nat → Nat → Res (Table × Diff)
  | _, _, _, 0 => .oot
  | t, diff, q, fuel + 1 =>
    match q with
    | [] =>
      if t.empty then .ok (t, diff) else .err "dirty entries remained" (t, diff)
    | _ :: _ =>
      match decodeInner ifuel t diff q with
      | .done t' diff' =>
        match enqueuePure t' ifuel with
        | .ok (t'', q') => decodeOuter ifuel t'' diff' q' fuel
        | .err m (t'', _) => .err m (t'', diff')
        | .panic => .panic
        | .oot => .oot
      | .stop t' diff' => .ok (t', diff')
      | .fail m t' diff' => .err m (t', diff')
      | .panicI => .panic
      | .ootI => .oot

/-- `Table.Decode()`: empty table → empty diff; otherwise scan for pures,
fail with `no pure buckets in table` if none, then run the peeling loop. -/
def Decode (t : Table) (ifuel fuel : Nat) : Res (Table × Diff) :=
  let diff := NewDiff t.BktNum
  if t.empty then .ok (t, diff)
  else
    match enqueuePure t ifuel with
    | .err m (t', _) => .err m (t', diff)
    | .panic => .panic
    | .oot => .oot
    | .ok (t1, q) =>
      if q.length = 0 then .err "no pure buckets in table" (t1, diff)
      else decodeOuter ifuel t1 diff q fuel

/-!
Pointer-level model of `Bucket.copy`.  The value-level model above cannot
express slice aliasing, so the byte arrays live in an explicit heap and a
bucket holds array addresses.
-/

/-- A heap of byte arrays; an address is an index into `mem`. -/
structure Heap where
  mem : List (List Nat)
  deriving DecidableEq, Repr

/-- Dereference an address (unallocated reads give `[]`; all uses below stay
within allocated addresses). -/
def Heap.read (h : Heap) (a : Nat) : List Nat := (h.mem.get? a).getD []

/-- Overwrite the array at an address. -/
def Heap.writeH (h : Heap) (a : Nat) (v : List Nat) : Heap := ⟨h.mem.set a v⟩

/-- Allocate a fresh array, returning its address. -/
def Heap.alloc (h : Heap) (v : List Nat) : Heap × Nat :=
  (⟨h.mem ++ [v]⟩, h.mem.length)

/-- Go `copy(dst, src)`: overwrite the first `min(len dst, len src)` entries
of `dst` with those of `src`. -/
def goCopy (dst src : List Nat) : List Nat :=
  src.take dst.length ++ dst.drop src.length

/-- A `*Bucket` whose slice fields are heap addresses. -/
structure BucketRef where
  dataSum : Nat
  hashSum : Nat
  count : Int
  deriving DecidableEq, Repr

/-- `NewBucket(dataLen, hashLen)` at pointer level: two fresh zero arrays. -/
def newBucketRef (h : Heap) (dataLen hashLen : Nat) : Heap × BucketRef :=
  let pd := h.alloc (List.replicate dataLen 0)
  let ph := pd.1.alloc (List.replicate hashLen 0)
  (ph.1, { dataSum := pd.2, hashSum := ph.2, count := 0 })

/-- `Bucket.copy()` at pointer level, exactly as the source: allocate a fresh
bucket, `copy(bkt.dataSum, b.dataSum)` fills the new data array, but
`bkt.hashSum = b.hashSum` makes the field point at the original hash
array. -/
def copyRef (h : Heap) (b : BucketRef) : Heap × BucketRef :=
  let pb := newBucketRef h (h.read b.dataSum).length (h.read b.hashSum).length
  let h2 := pb.1.writeH pb.2.dataSum (goCopy (pb.1.read pb.2.dataSum) (h.read b.dataSum))
  (h2, { pb.2 with hashSum := b.hashSum, count := b.count })

/-- `Bucket.operate(d, sign)` at pointer level: XOR both arrays in place. -/
def operateRef (h : Heap) (b : BucketRef) (d : List Nat) (sign : Bool) :
    Option (Heap × BucketRef) := do
  let ds ← bxor (h.read b.dataSum) d
  let h1 := h.writeH b.dataSum ds
  let hs ← bxor (h1.read b.hashSum) (sipHash d)
  pure (h1.writeH b.hashSum hs,
        { b with count := if sign then b.count + 1 else b.count - 1 })

/-- Observation of a table cell as bucket contents: a nil cell and a
never-written cell both read as the all-zero bucket.  This is the
"bucket-by-bucket" equivalence used by the spec (which cannot distinguish a
missing cell from an all-zero one by contents). -/
def viewB (t : Table) (i : Nat) : Bucket :=
  match t.buckets.get? i with
  | some (some b) => b
  | _ => NewBucket t.DataLen t.HashLen

/-- What a cell becomes after a serialize/deserialize round trip: nil and
all-zero cells come back absent, any other cell is preserved. -/
def stripCell : Option Bucket → Option Bucket
  | some b => if b.emptyB then none else some b
  | none => none

/-- Number of cells that produce a record in `serializeBody`. -/
def recCount (l : List (Option Bucket)) : Nat :=
  l.countP (fun ob => match ob with
    | some b => !b.emptyB
    | none => false)

/-- Concrete decode scenario that exercises the repetitive-element path:
one cell holding element `[0]` with count `-1` (a valid pure-negative cell:
`197` is the first digest byte of `[0]`), whose peeling re-creates the same
element with count `+1` in the second cell, so the second round dequeues a
pure bucket whose data is already in β. -/
def repTable : Table :=
  { BktNum := 2, DataLen := 1, HashLen := 1, HashNum := 2
    buckets := [some { dataSum := [0], hashSum := [197], count := -1 }, none]
    bitsSet := ∅ }

/-! ### Basic facts about the byte-level helpers -/

theorem bxor_eq_some_iff (a : List Nat) :
    ∀ (b r : List Nat), bxor a b = some r ↔
      a.length ≤ b.length ∧ r = List.zipWith Nat.xor a b := by
  induction a with
  | nil =>
    intro b r
    simp [bxor, eq_comm]
  | cons x xs ih =>
    intro b r
    cases b with
    | nil => simp [bxor]
    | cons y ys =>
      simp only [bxor, Option.map_eq_some', List.zipWith_cons_cons,
        List.length_cons, Nat.add_le_add_iff_right]
      constructor
      · rintro ⟨r', hr', rfl⟩
        obtain ⟨hl, rfl⟩ := (ih ys r').mp hr'
        exact ⟨hl, rfl⟩
      · rintro ⟨hl, rfl⟩
        exact ⟨List.zipWith Nat.xor xs ys, (ih ys _).mpr ⟨hl, rfl⟩, rfl⟩

theorem bxor_some (a b : List Nat) (h : a.length ≤ b.length) :
    bxor a b = some (List.zipWith Nat.xor a b) :=
  (bxor_eq_some_iff a b _).mpr ⟨h, rfl⟩

theorem bxor_isSome_iff (a b : List Nat) :
    (bxor a b).isSome = true ↔ a.length ≤ b.length := by
  constructor
  · intro h
    obtain ⟨r, hr⟩ := Option.isSome_iff_exists.mp h
    exact ((bxor_eq_some_iff a b r).mp hr).1
  · intro h
    rw [bxor_some a b h]
    rfl

theorem bxor_length {a b r : List Nat} (h : bxor a b = some r) :
    r.length = a.length := by
  obtain ⟨hl, rfl⟩ := (bxor_eq_some_iff a b r).mp h
  simp [List.length_zipWith]
  omega

theorem zipWith_xor_cancel (a : List Nat) :
    ∀ b : List Nat, a.length ≤ b.length →
      List.zipWith Nat.xor (List.zipWith Nat.xor a b) b = a := by
  induction a with
  | nil => intro b _; simp
  | cons x xs ih =>
    intro b h
    cases b with
    | nil => simp at h
    | cons y ys =>
      simp only [List.zipWith_cons_cons, List.cons.injEq]
      exact ⟨Nat.xor_cancel_right y x, ih ys (by simpa using h)⟩

theorem bxor_cancel {a b r : List Nat} (h : bxor a b = some r) :
    bxor r b = some a := by
  obtain ⟨hl, rfl⟩ := (bxor_eq_some_iff a b r).mp h
  have hlen : (List.zipWith Nat.xor a b).length ≤ b.length := by
    simp [List.length_zipWith]
  rw [bxor_some _ _ hlen, zipWith_xor_cancel a b hl]


theorem equalPrefix_eq (a : List Nat) :
    ∀ b : List Nat, a.length ≤ b.length →
      equalPrefix a b = some (decide (a = b.take a.length)) := by
  induction a with
  | nil => intro b _; simp [equalPrefix]
  | cons x xs ih =>
    intro b h
    cases b with
    | nil => simp at h
    | cons y ys =>
      simp only [equalPrefix, List.length_cons, List.take_succ_cons]
      by_cases hxy : x = y
      · subst hxy
        rw [if_neg (by simp)]
        rw [ih ys (by simpa using h)]
        simp
      · rw [if_pos (by simpa using hxy)]
        simp [hxy]

theorem sipHash_length (d : List Nat) : (sipHash d).length = 8 := rfl

/-! ### C7: the pure-bucket predicate -/

/-- C7: for a bucket whose `hashSum` fits inside the 8-byte digest (the
in-bounds precondition, cf. C10), `pure()` returns `true` iff `|count| = 1`
and the first `H = len(hashSum)` bytes of the digest of `dataSum` equal
`hashSum`. -/
theorem pure_characterization (b : Bucket) (h : b.hashSum.length ≤ 8) :
    b.pureB = .ok true ↔
      ((b.count = 1 ∨ b.count = -1) ∧
        b.hashSum = (sipHash b.dataSum).take b.hashSum.length) := by
  have hlen : b.hashSum.length ≤ (sipHash b.dataSum).length := by
    rw [sipHash_length]; exact h
  unfold Bucket.pureB
  by_cases hc : b.count = 1 ∨ b.count = -1
  · rw [if_pos hc, equalPrefix_eq _ _ hlen]
    simp [hc]
  · rw [if_neg hc]
    simp [hc]

/-- Witness for C7 at a concrete pure bucket. -/
theorem pure_characterization_witness :
    Bucket.pureB { dataSum := [0], hashSum := [197], count := 1 } = .ok true :=
  (pure_characterization { dataSum := [0], hashSum := [197], count := 1 }
    (by decide)).mpr (by constructor <;> decide)

/-! ### C10: the digest length bound -/

theorem bxor_eq_none (a b : List Nat) (h : b.length < a.length) :
    bxor a b = none := by
  cases heq : bxor a b with
  | none => rfl
  | some r =>
    have := ((bxor_eq_some_iff a b r).mp heq).1
    omega

theorem operate_isSome_iff (b : Bucket) (d : List Nat) (s : Bool)
    (hd : b.dataSum.length ≤ d.length) :
    (b.operate d s).isSome = true ↔ b.hashSum.length ≤ 8 := by
  unfold Bucket.operate
  rw [bxor_some _ _ hd]
  constructor
  · intro h
    by_contra hH
    rw [bxor_eq_none b.hashSum (sipHash d) (by rw [sipHash_length]; omega)] at h
    simp at h
  · intro hH
    rw [bxor_some _ _ (by rw [sipHash_length]; exact hH)]
    rfl

theorem indexLoop_one_one (ifuel : Nat) (h : 2 ≤ ifuel) (d : List Nat) :
    indexLoop d 1 1 ifuel 1 0 ∅ = .ok {0} := by
  obtain ⟨n, rfl⟩ : ∃ n, ifuel = n + 2 := ⟨ifuel - 2, by omega⟩
  simp [indexLoop, Nat.mod_one]

/-- C10: the digest returned by `sipHash` is always exactly 8 bytes; a
bucket update stays within bounds precisely when the bucket's `hashSum` is at
most 8 bytes (given a `dataSum` that fits the element, as table buckets
have); `NewTable` accepts any `HashLen` without validation; and on a table
built with `HashLen > 8` the first `Insert` of a well-sized element panics
with an out-of-bounds digest access. -/
theorem hashlen_bound_unchecked :
    (∀ d, (sipHash d).length = 8) ∧
    (∀ (b : Bucket) (d : List Nat) (s : Bool), b.dataSum.length ≤ d.length →
      ((b.operate d s).isSome = true ↔ b.hashSum.length ≤ 8)) ∧
    (∀ B D H k, (NewTable B D H k).HashLen = H) ∧
    (∀ H ifuel, 8 < H → 2 ≤ ifuel →
      Table.Insert (NewTable 1 1 H 1) [0] ifuel = .panic) := by
  refine ⟨sipHash_length, operate_isSome_iff, fun _ _ _ _ => rfl, ?_⟩
  intro H ifuel hH hfuel
  have hidx : (NewTable 1 1 H 1).index [0] ifuel
      = .ok { NewTable 1 1 H 1 with bitsSet := {0} } := by
    unfold Table.index
    rw [if_neg (by simp [NewTable])]
    simp only [NewTable]
    rw [indexLoop_one_one ifuel hfuel [0]]
  have hop : (NewBucket 1 H).operate [0] true = none := by
    unfold Bucket.operate
    have h1 : IBLT.bxor (NewBucket 1 H).dataSum [0] = some [0] := rfl
    have h2 : IBLT.bxor (NewBucket 1 H).hashSum (sipHash [0]) = none := by
      refine bxor_eq_none _ _ ?_
      simp [NewBucket, sipHash_length]
      omega
    rw [h1, h2]
    rfl
  show Table.operate _ _ _ _ = _
  simp only [Table.operate]
  rw [hidx]
  have hfil : (List.range ({ NewTable 1 1 H 1 with bitsSet := {0} } : Table).BktNum).filter
      (fun j => j ∈ ({ NewTable 1 1 H 1 with bitsSet := {0} } : Table).bitsSet)
      = [0] := by
    show (List.range 1).filter (fun j => j ∈ ({0} : Finset Nat)) = [0]
    decide
  simp only [hfil, Table.foldOp, Table.operateBucket]
  simp [NewTable, hop]

/-- Witness for C10: a table with `HashLen = 9` is constructed unvalidated
and its first insert panics. -/
theorem hashlen_bound_unchecked_witness :
    Table.Insert (NewTable 1 1 9 1) [0] 2 = .panic :=
  hashlen_bound_unchecked.2.2.2 9 2 (by omega) (by omega)

/-! ### C2: `Bucket.copy` aliases `hashSum` (pointer-level model) -/

/-- C2 (code bug): `copy()` deep-copies `dataSum` into a fresh array but
*assigns* the `hashSum` field, so the copy shares the original's `hashSum`
array.  Concretely: for a bucket at heap addresses 0 (dataSum `[0]`) and 1
(hashSum `[1]`), the copy's `hashSum` address equals the original's, its
`dataSum` address is fresh, and one `operate` applied to the copy rewrites
the array at the original's `hashSum` address from `[1]` to `[196]`
(`1 XOR 197`, the first digest byte of `[0]`).  This is the mechanism by
which, after `t.Subtract(u)` grafts copies of `u`'s cells, later operations
on `t` mutate `u`'s buckets. -/
theorem copy_aliases_hashSum_bug :
    ((copyRef { mem := [[0], [1]] } { dataSum := 0, hashSum := 1, count := 1 }).2.hashSum
        = 1) ∧
    ((copyRef { mem := [[0], [1]] } { dataSum := 0, hashSum := 1, count := 1 }).2.dataSum
        = 2) ∧
    (Heap.read { mem := [[0], [1]] } 1 = [1]) ∧
    ((operateRef (copyRef { mem := [[0], [1]] } { dataSum := 0, hashSum := 1, count := 1 }).1
        (copyRef { mem := [[0], [1]] } { dataSum := 0, hashSum := 1, count := 1 }).2
        [0] true).map (fun p => p.1.read 1) = some [196]) := by
  refine ⟨rfl, rfl, rfl, ?_⟩
  decide

/-! ### C4: `Deserialize` on truncated input -/

theorem deserializeLoop_not_err (dl hl : Nat) :
    ∀ (fuel : Nat) (table : Table) (rest : List Nat),
      (deserializeLoop dl hl fuel table rest).isErr = false := by
  intro fuel
  induction fuel with
  | zero => intro t r; rfl
  | succ n ih =>
    intro t r
    match r with
    | [] => rfl
    | [x] => rfl
    | a :: b :: rest2 =>
      simp only [deserializeLoop]
      split
      · match rest2 with
        | [] => rfl
        | [c] => rfl
        | c :: d :: rest3 => exact ih _ _
      · rfl

/-- C4 (code bug): `Deserialize` never returns an error — its `error` result
is unconditionally nil — and a buffer exhausted mid-header or mid-record is
an out-of-bounds panic inside `binary.BigEndian.Uint16`, not a decode
error. -/
theorem deserialize_partial_panics :
    (∀ b, (Deserialize b).isErr = false) ∧
    Deserialize [] = .panic ∧
    Deserialize [0] = .panic ∧
    Deserialize [0, 2, 0, 1, 0, 1, 0, 1, 0] = .panic := by
  refine ⟨?_, rfl, rfl, by decide⟩
  intro b
  unfold Deserialize
  split
  · rfl
  · split
    · rfl
    · split
      · rfl
      · split
        · rfl
        · exact deserializeLoop_not_err _ _ _ _ _

/-! ### C8: the length check of Insert/Delete -/

theorem indexLoop_not_err (d : List Nat) (B k : Nat) :
    ∀ (fuel tries i : Nat) (acc : Finset Nat),
      (indexLoop d B k fuel tries i acc).isErr = false := by
  intro fuel
  induction fuel with
  | zero => intro tries i acc; rfl
  | succ n ih =>
    intro tries i acc
    simp only [indexLoop]
    split
    · split
      · rfl
      · split
        · exact ih _ _ _
        · exact ih _ _ _
    · rfl

theorem operateBucket_not_err (t : Table) (i : Nat) (d : List Nat) (s : Bool) :
    (Table.operateBucket t i d s).isErr = false := by
  unfold Table.operateBucket
  split
  · rfl
  · split
    · rfl
    · rfl

theorem foldOp_not_err (d : List Nat) (s : Bool) :
    ∀ (l : List Nat) (t : Table), (Table.foldOp t l d s).isErr = false := by
  intro l
  induction l with
  | nil => intro t; rfl
  | cons i is ih =>
    intro t
    simp only [Table.foldOp]
    rcases h : Table.operateBucket t i d s with t' | ⟨m', u⟩ | _ | _
    · exact ih t'
    · have := operateBucket_not_err t i d s
      rw [h] at this
      simpa using this
    · rfl
    · rfl

theorem operate_err_iff (t : Table) (d : List Nat) (s : Bool) (ifuel : Nat) :
    ∀ m u, Table.operate t d s ifuel = .err m u ↔
      (d.length ≠ t.DataLen ∧
        m = "insert byte length mismatches base data length" ∧ u = t) := by
  intro m u
  simp only [Table.operate, Table.index]
  by_cases hlen : d.length ≠ t.DataLen
  · rw [if_pos hlen]
    constructor
    · intro h
      simp only [Res.err.injEq] at h
      exact ⟨hlen, h.1.symm, h.2.symm⟩
    · rintro ⟨_, rfl, rfl⟩
      rfl
  · rw [if_neg hlen]
    rcases hloop : indexLoop d t.BktNum t.HashNum ifuel 1 0 ∅ with
      r | ⟨m', r⟩ | _ | _
    · constructor
      · intro h
        have h2 : Table.foldOp { t with bitsSet := r }
            ((List.range ({ t with bitsSet := r } : Table).BktNum).filter
              (fun j => j ∈ ({ t with bitsSet := r } : Table).bitsSet)) d s
            = Res.err m u := h
        have h3 := foldOp_not_err d s
          ((List.range ({ t with bitsSet := r } : Table).BktNum).filter
            (fun j => j ∈ ({ t with bitsSet := r } : Table).bitsSet))
          { t with bitsSet := r }
        rw [h2] at h3
        simp [Res.isErr] at h3
      · rintro ⟨hne, _, _⟩
        exact absurd hne hlen
    · have h3 := indexLoop_not_err d t.BktNum t.HashNum ifuel 1 0 ∅
      rw [hloop] at h3
      simp [Res.isErr] at h3
    · simp [not_not.mp hlen]
    · simp [not_not.mp hlen]

/-- C8: `Insert` and `Delete` return an error exactly when the element
length differs from `DataLen`; the error is the length-mismatch error and it
carries the table back unchanged (no cell is created or modified); no other
error is possible. -/
theorem length_mismatch_check (t : Table) (d : List Nat) (ifuel : Nat) :
    (Table.Insert t d ifuel
        = .err "insert byte length mismatches base data length" t
      ↔ d.length ≠ t.DataLen) ∧
    (Table.Delete t d ifuel
        = .err "insert byte length mismatches base data length" t
      ↔ d.length ≠ t.DataLen) ∧
    (∀ m u, Table.Insert t d ifuel = .err m u →
      m = "insert byte length mismatches base data length" ∧ u = t
        ∧ u.buckets = t.buckets) ∧
    (∀ m u, Table.Delete t d ifuel = .err m u →
      m = "insert byte length mismatches base data length" ∧ u = t
        ∧ u.buckets = t.buckets) := by
  refine ⟨?_, ?_, ?_, ?_⟩
  · constructor
    · intro h
      exact ((operate_err_iff t d true ifuel _ _).mp h).1
    · intro h
      exact (operate_err_iff t d true ifuel _ _).mpr ⟨h, rfl, rfl⟩
  · constructor
    · intro h
      exact ((operate_err_iff t d false ifuel _ _).mp h).1
    · intro h
      exact (operate_err_iff t d false ifuel _ _).mpr ⟨h, rfl, rfl⟩
  · intro m u h
    obtain ⟨_, hm, hu⟩ := (operate_err_iff t d true ifuel m u).mp h
    exact ⟨hm, hu, by rw [hu]⟩
  · intro m u h
    obtain ⟨_, hm, hu⟩ := (operate_err_iff t d false ifuel m u).mp h
    exact ⟨hm, hu, by rw [hu]⟩

/-- Witness for C8: a 1-byte element inserted into a table with
`DataLen = 2` is rejected with the length-mismatch error and the table is
returned unchanged. -/
theorem length_mismatch_check_witness :
    Table.Insert (NewTable 1 2 1 1) [0] 3
      = .err "insert byte length mismatches base data length" (NewTable 1 2 1 1) :=
  (length_mismatch_check (NewTable 1 2 1 1) [0] 3).1.mpr (by decide)

/-! ### C6: the index set -/

theorem indexLoop_ok_spec (d : List Nat) (B k : Nat) :
    ∀ (fuel tries i : Nat) (acc S : Finset Nat),
      indexLoop d B k fuel tries i acc = .ok S →
      acc.card = i → i ≤ k → (∀ j ∈ acc, j < B) →
      S.card = k ∧ (∀ j ∈ S, j < B) := by
  intro fuel
  induction fuel with
  | zero =>
    intro tries i acc S h
    exact absurd h (by simp [indexLoop])
  | succ n ih =>
    intro tries i acc S h hcard hik hlt
    simp only [indexLoop] at h
    by_cases hik2 : i < k
    · rw [if_pos hik2] at h
      by_cases hB : B = 0
      · rw [if_pos hB] at h
        exact absurd h (by simp)
      · rw [if_neg hB] at h
        by_cases hmem : sipHashRaw key0 (key1 + tries) d % B ∈ acc
        · rw [if_pos hmem] at h
          exact ih _ _ _ _ h hcard hik hlt
        · rw [if_neg hmem] at h
          refine ih _ _ _ _ h ?_ (by omega) ?_
          · rw [Finset.card_insert_of_not_mem hmem, hcard]
          · intro j hj
            rcases Finset.mem_insert.mp hj with rfl | hj2
            · exact Nat.mod_lt _ (Nat.pos_of_ne_zero hB)
            · exact hlt j hj2
    · rw [if_neg hik2] at h
      cases h
      exact ⟨by omega, hlt⟩

/-- C6: when the salted search loop completes, the scratch bitset holds
exactly `HashNum` distinct cell indices, all below `BktNum`; the cell array
is untouched; and the outcome depends only on the element bytes and the
`(BktNum, HashNum)` parameters, so two tables with equal parameters agree on
the index set.  (The salt starts at `tries = 1` folded into the second hash
key and increments on every attempt, accepted or rejected, as in
`indexLoop`; termination is only probabilistic, hence the fuel.) -/
theorem index_distinct_deterministic (t : Table) (d : List Nat) (ifuel : Nat)
    (t' : Table) (h : t.index d ifuel = .ok t') :
    t'.bitsSet.card = t.HashNum ∧ (∀ j ∈ t'.bitsSet, j < t.BktNum) ∧
    t'.buckets = t.buckets ∧
    (∀ (u u' : Table), u.BktNum = t.BktNum → u.HashNum = t.HashNum →
        u.index d ifuel = .ok u' → u'.bitsSet = t'.bitsSet) := by
  unfold Table.index at h
  by_cases hlen : d.length ≠ t.DataLen
  · rw [if_pos hlen] at h
    exact absurd h (by simp)
  · rw [if_neg hlen] at h
    rcases hloop : indexLoop d t.BktNum t.HashNum ifuel 1 0 ∅ with
      S | ⟨m, r⟩ | _ | _ <;> rw [hloop] at h
    · cases h
      have hspec := indexLoop_ok_spec d t.BktNum t.HashNum ifuel 1 0 ∅ S hloop
        (by simp) (Nat.zero_le _) (by simp)
      refine ⟨hspec.1, hspec.2, rfl, ?_⟩
      intro u u' hB hk hu
      unfold Table.index at hu
      by_cases hlu : d.length ≠ u.DataLen
      · rw [if_pos hlu] at hu
        exact absurd hu (by simp)
      · rw [if_neg hlu] at hu
        rw [hB, hk, hloop] at hu
        cases hu
        rfl
    · exact absurd h (by simp)
    · exact absurd h (by simp)
    · exact absurd h (by simp)

/-- Witness for C6 at `(B, k) = (5, 3)` and element `[0]`: the computed
index set is `{0, 1, 4}`, of size exactly 3. -/
theorem index_distinct_deterministic_witness :
    ({ BktNum := 5, DataLen := 1, HashLen := 1, HashNum := 3,
       buckets := List.replicate 5 none,
       bitsSet := ({0, 1, 4} : Finset Nat) } : Table).bitsSet.card = 3 :=
  (index_distinct_deterministic (NewTable 5 1 1 3) [0] 64
    { BktNum := 5, DataLen := 1, HashLen := 1, HashNum := 3,
      buckets := List.replicate 5 none,
      bitsSet := ({0, 1, 4} : Finset Nat) } (by decide)).1

/-! ### C9: the Diff invariant under encode -/

theorem bsTest_iff (s : List (List Nat)) (b : List Nat) :
    bsTest s b = true ↔ b ∈ s := by
  simp [bsTest]

/-- C9: every `Diff.encode` call preserves the invariant that α and β are
disjoint and each duplicate-free: a repetitive element is removed from the
opposite side rather than being present on both, and an element already on
its own side is not inserted a second time. -/
theorem encode_preserves_invariant (d : Diff) (b : Bucket)
    (hdis : ∀ x ∈ d.Alpha, x ∉ d.Beta) (ha : d.Alpha.Nodup)
    (hb : d.Beta.Nodup) :
    (∀ x ∈ (d.encode b).1.Alpha, x ∉ (d.encode b).1.Beta) ∧
    (d.encode b).1.Alpha.Nodup ∧ (d.encode b).1.Beta.Nodup := by
  unfold Diff.encode
  by_cases h1 : b.count = 1
  · rw [if_pos h1]
    by_cases hbeta : bsTest d.Beta b.dataSum = true
    · rw [if_pos hbeta]
      refine ⟨?_, ha, hb.sublist (List.eraseIdx_sublist _ _)⟩
      intro x hx hmem
      exact hdis x hx ((List.eraseIdx_sublist _ _).subset hmem)
    · rw [if_neg hbeta]
      unfold bsInsert
      by_cases halpha : bsTest d.Alpha b.dataSum = true
      · rw [if_pos halpha]
        exact ⟨hdis, ha, hb⟩
      · rw [if_neg halpha]
        refine ⟨?_, ?_, hb⟩
        · intro x hx
          rcases List.mem_append.mp hx with hx2 | hx2
          · exact hdis x hx2
          · rw [List.mem_singleton.mp hx2]
            intro hmem
            exact hbeta ((bsTest_iff _ _).mpr hmem)
        · rw [List.nodup_append]
          refine ⟨ha, List.nodup_singleton _, ?_⟩
          intro x hx hx2
          rw [List.mem_singleton.mp hx2] at hx
          exact halpha ((bsTest_iff _ _).mpr hx)
  · rw [if_neg h1]
    by_cases h2 : b.count = -1
    · rw [if_pos h2]
      by_cases halpha : bsTest d.Alpha b.dataSum = true
      · rw [if_pos halpha]
        refine ⟨?_, ha.sublist (List.eraseIdx_sublist _ _), hb⟩
        intro x hx hmem
        exact hdis x ((List.eraseIdx_sublist _ _).subset hx) hmem
      · rw [if_neg halpha]
        unfold bsInsert
        by_cases hbeta : bsTest d.Beta b.dataSum = true
        · rw [if_pos hbeta]
          exact ⟨hdis, ha, hb⟩
        · rw [if_neg hbeta]
          refine ⟨?_, ha, ?_⟩
          · intro x hx hmem
            rcases List.mem_append.mp hmem with hm2 | hm2
            · exact hdis x hx hm2
            · rw [List.mem_singleton.mp hm2] at hx
              exact halpha ((bsTest_iff _ _).mpr hx)
          · rw [List.nodup_append]
            refine ⟨hb, List.nodup_singleton _, ?_⟩
            intro x hx hx2
            rw [List.mem_singleton.mp hx2] at hx
            exact hbeta ((bsTest_iff _ _).mpr hx)
    · rw [if_neg h2]
      exact ⟨hdis, ha, hb⟩

/-- Witness for C9: encoding a pure bucket into an empty diff keeps α
duplicate-free. -/
theorem encode_preserves_invariant_witness :
    (Diff.encode { Alpha := [], Beta := [] }
      { dataSum := [0], hashSum := [197], count := 1 }).1.Alpha.Nodup :=
  (encode_preserves_invariant { Alpha := [], Beta := [] }
    { dataSum := [0], hashSum := [197], count := 1 }
    (by simp) (by simp) (by simp)).2.1

/-! ### C5: insert/delete symmetry -/

theorem operate_eq_some_iff (c : Bucket) (d : List Nat) (s : Bool) (b : Bucket) :
    c.operate d s = some b ↔
      c.dataSum.length ≤ d.length ∧ c.hashSum.length ≤ 8 ∧
      b = { dataSum := List.zipWith Nat.xor c.dataSum d
            hashSum := List.zipWith Nat.xor c.hashSum (sipHash d)
            count := if s then c.count + 1 else c.count - 1 } := by
  unfold Bucket.operate
  constructor
  · intro h
    rcases hd : IBLT.bxor c.dataSum d with _ | ds <;> rw [hd] at h
    · simp at h
    · rcases hh : IBLT.bxor c.hashSum (sipHash d) with _ | hs <;> rw [hh] at h
      · simp at h
      · obtain ⟨hld, rfl⟩ := (bxor_eq_some_iff _ _ _).mp hd
        obtain ⟨hlh, rfl⟩ := (bxor_eq_some_iff _ _ _).mp hh
        rw [sipHash_length] at hlh
        simp only [Option.some_bind, Option.pure_def] at h
        exact ⟨hld, hlh, (Option.some.injEq _ _ ▸ h).symm⟩
  · rintro ⟨h1, h2, rfl⟩
    rw [bxor_some _ _ h1, bxor_some _ _ (by rw [sipHash_length]; exact h2)]
    rfl

theorem operate_cancel (c : Bucket) (d : List Nat) (b : Bucket)
    (h : c.operate d true = some b) : b.operate d false = some c := by
  obtain ⟨h1, h2, rfl⟩ := (operate_eq_some_iff c d true b).mp h
  apply (operate_eq_some_iff _ d false c).mpr
  have hl1 : (List.zipWith Nat.xor c.dataSum d).length ≤ d.length := by
    simp [List.length_zipWith]
  have hl2 : (List.zipWith Nat.xor c.hashSum (sipHash d)).length ≤ 8 := by
    simp [List.length_zipWith, sipHash_length]
  refine ⟨hl1, hl2, ?_⟩
  cases c with
  | mk ds hs cnt =>
    simp only [Bucket.mk.injEq]
    refine ⟨(zipWith_xor_cancel ds d h1).symm, ?_, by simp⟩
    have : hs.length ≤ (sipHash d).length := by rw [sipHash_length]; exact h2
    exact (zipWith_xor_cancel hs (sipHash d) this).symm

theorem operateBucket_ok_iff (t : Table) (i : Nat) (d : List Nat) (s : Bool)
    (u : Table) :
    Table.operateBucket t i d s = .ok u ↔
      ∃ cell b, t.buckets.get? i = some cell ∧
        (cell.getD (NewBucket t.DataLen t.HashLen)).operate d s = some b ∧
        u = { t with buckets := t.buckets.set i (some b) } := by
  unfold Table.operateBucket
  constructor
  · intro h
    split at h
    · exact absurd h (by simp)
    · rename_i cell hc
      split at h
      · rename_i b hb
        simp only [Res.ok.injEq] at h
        exact ⟨cell, b, hc, hb, h.symm⟩
      · exact absurd h (by simp)
  · rintro ⟨cell, b, hc, hb, rfl⟩
    have hc2 : t.buckets[i]? = some cell := by simpa using hc
    simp [hc2, hb]

theorem foldOp_char (d : List Nat) (s : Bool) :
    ∀ (l : List Nat) (t : Table), l.Nodup →
      (∀ j ∈ l, ∃ cell, t.buckets.get? j = some cell ∧
        ((cell.getD (NewBucket t.DataLen t.HashLen)).operate d s).isSome = true) →
      ∃ t', Table.foldOp t l d s = .ok t' ∧
        t'.BktNum = t.BktNum ∧ t'.DataLen = t.DataLen ∧ t'.HashLen = t.HashLen ∧
        t'.HashNum = t.HashNum ∧ t'.bitsSet = t.bitsSet ∧
        t'.buckets.length = t.buckets.length ∧
        (∀ j, j ∉ l → t'.buckets.get? j = t.buckets.get? j) ∧
        (∀ j ∈ l, ∀ cell, t.buckets.get? j = some cell →
          t'.buckets.get? j
            = some ((cell.getD (NewBucket t.DataLen t.HashLen)).operate d s)) := by
  intro l
  induction l with
  | nil =>
    intro t _ _
    exact ⟨t, rfl, rfl, rfl, rfl, rfl, rfl, rfl, fun j _ => rfl, by simp⟩
  | cons i is ih =>
    intro t hnd hsucc
    obtain ⟨cell, hc, hop⟩ := hsucc i (List.mem_cons_self i is)
    obtain ⟨b, hb⟩ := Option.isSome_iff_exists.mp hop
    have hilt : i < t.buckets.length := by
      by_contra hge
      rw [List.get?_eq_none.mpr (Nat.le_of_not_lt hge)] at hc
      cases hc
    have hinotin : i ∉ is := (List.nodup_cons.mp hnd).1
    have hnd2 : is.Nodup := (List.nodup_cons.mp hnd).2
    have hob : Table.operateBucket t i d s
        = .ok { t with buckets := t.buckets.set i (some b) } :=
      (operateBucket_ok_iff t i d s _).mpr ⟨cell, b, hc, hb, rfl⟩
    have hsucc2 : ∀ j ∈ is, ∃ cell2,
        ({ t with buckets := t.buckets.set i (some b) } : Table).buckets.get? j
          = some cell2 ∧
        ((cell2.getD (NewBucket t.DataLen t.HashLen)).operate d s).isSome
          = true := by
      intro j hj
      obtain ⟨cell2, hc2, hop2⟩ := hsucc j (List.mem_cons_of_mem i hj)
      refine ⟨cell2, ?_, hop2⟩
      show (t.buckets.set i (some b)).get? j = some cell2
      rw [List.get?_set_ne _ _ (by intro he; subst he; exact hinotin hj)]
      exact hc2
    obtain ⟨t', hfold, hp1, hp2, hp3, hp4, hp5, hlen, hout, hin⟩ :=
      ih { t with buckets := t.buckets.set i (some b) } hnd2 hsucc2
    refine ⟨t', ?_, hp1, hp2, hp3, hp4, hp5, ?_, ?_, ?_⟩
    · simp only [Table.foldOp]
      rw [hob]
      exact hfold
    · rw [hlen]
      simp
    · intro j hj
      have hji : j ≠ i := by
        intro he
        subst he
        exact hj (List.mem_cons_self j is)
      have hjis : j ∉ is := fun he => hj (List.mem_cons_of_mem i he)
      rw [hout j hjis]
      show (t.buckets.set i (some b)).get? j = t.buckets.get? j
      exact List.get?_set_ne _ _ (fun he => hji he.symm)
    · intro j hj cellj hcj
      rcases List.mem_cons.mp hj with rfl | hj2
      · have hcell : cellj = cell := by
          rw [hc] at hcj
          exact Option.some_injective _ hcj.symm
        rw [hcell, hout j hinotin]
        show (t.buckets.set j (some b)).get? j
          = some ((cell.getD (NewBucket t.DataLen t.HashLen)).operate d s)
        rw [List.get?_set_eq_of_lt _ hilt, hb]
      · have hji : j ≠ i := by
          intro he
          subst he
          exact hinotin hj2
        refine hin j hj2 cellj ?_
        show (t.buckets.set i (some b)).get? j = some cellj
        rw [List.get?_set_ne _ _ (fun he => hji he.symm)]
        exact hcj

theorem foldOp_ok_succ (d : List Nat) (s : Bool) :
    ∀ (l : List Nat) (t t1 : Table), l.Nodup → Table.foldOp t l d s = .ok t1 →
      ∀ j ∈ l, ∃ cell, t.buckets.get? j = some cell ∧
        ((cell.getD (NewBucket t.DataLen t.HashLen)).operate d s).isSome
          = true := by
  intro l
  induction l with
  | nil =>
    intro t t1 _ h j hj
    simp at hj
  | cons i is ih =>
    intro t t1 hnd h j hj
    simp only [Table.foldOp] at h
    rcases hob : Table.operateBucket t i d s with u | ⟨m, u⟩ | _ | _ <;>
      rw [hob] at h
    · obtain ⟨cell, b, hc, hb, hu⟩ := (operateBucket_ok_iff t i d s u).mp hob
      rcases List.mem_cons.mp hj with rfl | hj2
      · exact ⟨cell, hc, by rw [hb]; rfl⟩
      · obtain ⟨cell2, hc2, hop2⟩ := ih u t1 (List.nodup_cons.mp hnd).2 h j hj2
        have hji : j ≠ i := by
          intro he
          subst he
          exact (List.nodup_cons.mp hnd).1 hj2
        rw [hu] at hc2 hop2
        refine ⟨cell2, ?_, hop2⟩
        have h3 : (t.buckets.set i (some b)).get? j = some cell2 := hc2
        rw [List.get?_set_ne _ _ (fun he => hji he.symm)] at h3
        exact h3
    · exact absurd h (by simp)
    · exact absurd h (by simp)
    · exact absurd h (by simp)

theorem index_ok_char (t : Table) (d : List Nat) (ifuel : Nat) (t' : Table)
    (h : t.index d ifuel = .ok t') :
    d.length = t.DataLen ∧
    indexLoop d t.BktNum t.HashNum ifuel 1 0 ∅ = .ok t'.bitsSet ∧
    t' = { t with bitsSet := t'.bitsSet } := by
  unfold Table.index at h
  by_cases hlen : d.length ≠ t.DataLen
  · rw [if_pos hlen] at h
    exact absurd h (by simp)
  · rw [if_neg hlen] at h
    rcases hloop : indexLoop d t.BktNum t.HashNum ifuel 1 0 ∅ with
      S | ⟨m, r⟩ | _ | _ <;> rw [hloop] at h
    · cases h
      exact ⟨not_not.mp hlen, rfl, rfl⟩
    · exact absurd h (by simp)
    · exact absurd h (by simp)
    · exact absurd h (by simp)

/-- C5 (amended): if `Insert` succeeds, the subsequent `Delete` of the same
element succeeds and restores every cell's *contents* — the table is
bucket-by-bucket equivalent to the original when a nil cell is read as the
all-zero bucket — but (per the counterexample) cells created lazily by the
insert remain present as all-zero cells instead of reverting to absent. -/
theorem insert_delete_contents (t : Table) (d : List Nat) (ifuel : Nat)
    (t1 : Table) (h1 : Table.Insert t d ifuel = .ok t1) :
    ∃ t2, Table.Delete t1 d ifuel = .ok t2 ∧
      (∀ i, viewB t2 i = viewB t i) ∧
      t2.BktNum = t.BktNum ∧ t2.DataLen = t.DataLen ∧
      t2.HashLen = t.HashLen ∧ t2.HashNum = t.HashNum ∧
      t2.buckets.length = t.buckets.length := by
  simp only [Table.Insert, Table.operate] at h1
  rcases hidx : t.index d ifuel with ti | ⟨m, u⟩ | _ | _ <;> rw [hidx] at h1
  case err => exact absurd h1 (by simp)
  case panic => exact absurd h1 (by simp)
  case oot => exact absurd h1 (by simp)
  obtain ⟨hdlen, hloop, hti⟩ := index_ok_char t d ifuel ti hidx
  have tib : ti.buckets = t.buckets := by rw [hti]
  have tiB : ti.BktNum = t.BktNum := by rw [hti]
  have tiD : ti.DataLen = t.DataLen := by rw [hti]
  have tiH : ti.HashLen = t.HashLen := by rw [hti]
  have tik : ti.HashNum = t.HashNum := by rw [hti]
  have hf1 : Table.foldOp ti
      ((List.range ti.BktNum).filter (fun j => j ∈ ti.bitsSet)) d true
      = .ok t1 := h1
  rw [tiB] at hf1
  have hnd : ((List.range t.BktNum).filter (fun j => j ∈ ti.bitsSet)).Nodup :=
    (List.nodup_range _).filter _
  have hsucc1 := foldOp_ok_succ d true
    ((List.range t.BktNum).filter (fun j => j ∈ ti.bitsSet)) ti t1 hnd hf1
  rw [tib, tiD, tiH] at hsucc1
  obtain ⟨t1x, hfold1, q1, q2, q3, q4, q5, qlen, qout, qin⟩ :=
    foldOp_char d true
      ((List.range t.BktNum).filter (fun j => j ∈ ti.bitsSet)) ti hnd (by
      rw [tib, tiD, tiH]
      exact hsucc1)
  rw [hf1] at hfold1
  injection hfold1 with heq
  subst heq
  rw [tib, tiD, tiH] at qin
  rw [tib] at qout
  rw [tiB] at q1
  rw [tiD] at q2
  rw [tiH] at q3
  rw [tik] at q4
  rw [tib] at qlen
  -- the delete recomputes the same index set
  have hidx2 : t1.index d ifuel = .ok { t1 with bitsSet := ti.bitsSet } := by
    unfold Table.index
    have hdl1 : d.length = t1.DataLen := by rw [q2, hdlen]
    rw [if_neg (not_not_intro hdl1), q1, q4, hloop]
  have hf2pre : Table.Delete t1 d ifuel
      = Table.foldOp { t1 with bitsSet := ti.bitsSet }
          ((List.range t1.BktNum).filter (fun j => j ∈ ti.bitsSet)) d false := by
    simp only [Table.Delete, Table.operate]
    rw [hidx2]
  nth_rewrite 2 [q1] at hf2pre
  have hsucc2 : ∀ j ∈ (List.range t.BktNum).filter (fun j => j ∈ ti.bitsSet),
      ∃ cell,
      ({ t1 with bitsSet := ti.bitsSet } : Table).buckets.get? j = some cell ∧
      ((cell.getD (NewBucket ({ t1 with bitsSet := ti.bitsSet } : Table).DataLen
          ({ t1 with bitsSet := ti.bitsSet } : Table).HashLen)).operate d
        false).isSome = true := by
    intro j hj
    obtain ⟨cell, hc, hop⟩ := hsucc1 j hj
    obtain ⟨b, hb⟩ := Option.isSome_iff_exists.mp hop
    have ht1j : t1.buckets.get? j = some (some b) := by
      have h5 := qin j hj cell hc
      rw [hb] at h5
      exact h5
    refine ⟨some b, ht1j, ?_⟩
    have hcan := operate_cancel _ d b hb
    have : (b.operate d false).isSome = true := by rw [hcan]; rfl
    exact this
  obtain ⟨t2, hfold2, r1, r2, r3, r4, r5, rlen, rout, rin⟩ :=
    foldOp_char d false
      ((List.range t.BktNum).filter (fun j => j ∈ ti.bitsSet))
      { t1 with bitsSet := ti.bitsSet } hnd hsucc2
  have r1' : t2.BktNum = t1.BktNum := r1
  have r2' : t2.DataLen = t1.DataLen := r2
  have r3' : t2.HashLen = t1.HashLen := r3
  have r4' : t2.HashNum = t1.HashNum := r4
  have rlen' : t2.buckets.length = t1.buckets.length := rlen
  have rout' : ∀ j, j ∉ (List.range t.BktNum).filter (fun j => j ∈ ti.bitsSet) →
      t2.buckets.get? j = t1.buckets.get? j := rout
  have rin' : ∀ j ∈ (List.range t.BktNum).filter (fun j => j ∈ ti.bitsSet),
      ∀ cell,
      t1.buckets.get? j = some cell →
      t2.buckets.get? j
        = some ((cell.getD (NewBucket t1.DataLen t1.HashLen)).operate d false) :=
    rin
  refine ⟨t2, by rw [hf2pre]; exact hfold2, ?_, r1'.trans q1, r2'.trans q2,
    r3'.trans q3, r4'.trans q4, rlen'.trans qlen⟩
  intro i
  by_cases hiL : i ∈ (List.range t.BktNum).filter (fun j => j ∈ ti.bitsSet)
  · obtain ⟨cell, hc, hop⟩ := hsucc1 i hiL
    obtain ⟨b, hb⟩ := Option.isSome_iff_exists.mp hop
    have ht1i : t1.buckets.get? i = some (some b) := by
      have h5 := qin i hiL cell hc
      rw [hb] at h5
      exact h5
    have hcan := operate_cancel _ d b hb
    have ht2i : t2.buckets.get? i
        = some (some (cell.getD (NewBucket t.DataLen t.HashLen))) := by
      have h6 := rin' i hiL (some b) ht1i
      have h7 : ((some b).getD (NewBucket t1.DataLen t1.HashLen)).operate d false
          = some (cell.getD (NewBucket t.DataLen t.HashLen)) := hcan
      rw [h7] at h6
      exact h6
    unfold viewB
    rw [ht2i, hc]
    cases cell with
    | none => rfl
    | some c => rfl
  · have hsame : t2.buckets.get? i = t.buckets.get? i := by
      rw [rout' i hiL, qout i hiL]
    unfold viewB
    rw [hsame]
    rcases t.buckets.get? i with _ | ⟨_ | c⟩
    · show NewBucket t2.DataLen t2.HashLen = NewBucket t.DataLen t.HashLen
      rw [r2'.trans q2, r3'.trans q3]
    · show NewBucket t2.DataLen t2.HashLen = NewBucket t.DataLen t.HashLen
      rw [r2'.trans q2, r3'.trans q3]
    · rfl

/-- C5 counterexample: on a fresh one-cell table, `Insert [0]` then
`Delete [0]` leaves the cell *present* (an all-zero bucket) where the
original table had an absent (nil) cell, so the table is not equal to the
original including the absent-versus-present status, contrary to the
claim. -/
theorem insert_delete_presence_cex :
    (match Table.Insert (NewTable 1 1 1 1) [0] 64 with
     | .ok u => Table.Delete u [0] 64
     | r => r)
      = .ok { BktNum := 1, DataLen := 1, HashLen := 1, HashNum := 1,
              buckets := [some { dataSum := [0], hashSum := [0], count := 0 }],
              bitsSet := {0} } ∧
    (NewTable 1 1 1 1).buckets = [none] ∧
    [some ({ dataSum := [0], hashSum := [0], count := 0 } : Bucket)]
      ≠ ([none] : List (Option Bucket)) := by
  refine ⟨rfl, rfl, by decide⟩

/-- Witness for C5 (amended) on the fresh one-cell table: delete after
insert succeeds and the contents match the original everywhere. -/
theorem insert_delete_contents_witness :
    ∃ t2, Table.Delete ({
        BktNum := 1
        DataLen := 1
        HashLen := 1
        HashNum := 1
        buckets := [some { dataSum := [0], hashSum := [197], count := 1 }]
        bitsSet := {0} } : Table) [0] 64 = .ok t2 ∧
      (∀ i, viewB t2 i = viewB (NewTable 1 1 1 1) i) ∧
      t2.BktNum = (NewTable 1 1 1 1).BktNum ∧
      t2.DataLen = (NewTable 1 1 1 1).DataLen ∧
      t2.HashLen = (NewTable 1 1 1 1).HashLen ∧
      t2.HashNum = (NewTable 1 1 1 1).HashNum ∧
      t2.buckets.length = (NewTable 1 1 1 1).buckets.length :=
  insert_delete_contents (NewTable 1 1 1 1) [0] 64
    ({
       BktNum := 1
       DataLen := 1
       HashLen := 1
       HashNum := 1
       buckets := [some { dataSum := [0], hashSum := [197], count := 1 }]
       bitsSet := {0} } : Table) (by decide)

/-! ### C3: serialization round trip -/

theorem recCount_le_body : ∀ (l : List (Option Bucket)) (p : Nat),
    recCount l ≤ (serializeBody p l).length := by
  intro l
  induction l with
  | nil => intro p; simp [recCount, serializeBody]
  | cons ob rest ih =>
    intro p
    simp only [recCount, List.countP_cons, serializeBody, List.length_append]
    rcases ob with _ | b
    · simpa [recCount] using ih (p + 1)
    · by_cases hb : b.emptyB
      · simp [hb]
        have := ih (p + 1)
        simp [recCount] at this
        omega
      · simp [hb, u16be]
        have := ih (p + 1)
        simp [recCount] at this
        omega

theorem readU16_u16be (n : Nat) (h : n < 65536) (rest : List Nat) :
    readU16 (u16be n ++ rest) = some (n, rest) := by
  simp only [u16be, List.cons_append, List.nil_append, readU16]
  have : n % 65536 / 256 * 256 + n % 256 = n := by omega
  rw [this]

theorem int16_round (c : Int) (h1 : -32768 ≤ c) (h2 : c < 32768) :
    int16val (intToU16 c) = c := by
  simp only [int16val, intToU16]
  split_ifs with h <;> omega

theorem deserializeLoop_body (D H : Nat) :
    ∀ (l : List (Option Bucket)) (p : Nat) (table : Table) (fuel : Nat),
      p + l.length ≤ table.buckets.length →
      table.buckets.length < 65536 →
      recCount l < fuel →
      (∀ ob ∈ l, ∀ b, ob = some b → b.dataSum.length = D ∧
        b.hashSum.length = H ∧ -32768 ≤ b.count ∧ b.count < 32768) →
      (∀ j, j < l.length → table.buckets.get? (p + j) = some none) →
      ∃ T, deserializeLoop D H fuel table (serializeBody p l) = .ok T ∧
        T.BktNum = table.BktNum ∧ T.DataLen = table.DataLen ∧
        T.HashLen = table.HashLen ∧ T.HashNum = table.HashNum ∧
        T.bitsSet = table.bitsSet ∧
        T.buckets.length = table.buckets.length ∧
        (∀ j, j < p → T.buckets.get? j = table.buckets.get? j) ∧
        (∀ j, p + l.length ≤ j → T.buckets.get? j = table.buckets.get? j) ∧
        (∀ j ob, l.get? j = some ob →
          T.buckets.get? (p + j) = some (stripCell ob)) := by
  intro l
  induction l with
  | nil =>
    intro p table fuel hb hblen hfuel hcells hwin
    obtain ⟨n, rfl⟩ : ∃ n, fuel = n + 1 := ⟨fuel - 1, by omega⟩
    refine ⟨table, rfl, rfl, rfl, rfl, rfl, rfl, rfl, fun j _ => rfl,
      fun j _ => rfl, ?_⟩
    intro j ob hj
    simp at hj
  | cons ob rest ih =>
    intro p table fuel hb hblen hfuel hcells hwin
    by_cases hskip : stripCell ob = none
    · -- nil or all-zero cell: no bytes are emitted for it
      have hbody : serializeBody p (ob :: rest) = serializeBody (p + 1) rest := by
        rcases ob with _ | b
        · simp [serializeBody]
        · simp only [stripCell] at hskip
          by_cases hbe : b.emptyB
          · simp [serializeBody, hbe]
          · rw [if_neg hbe] at hskip
            cases hskip
      have hrec : recCount rest < fuel := by
        have : recCount (ob :: rest) < fuel := hfuel
        simp only [recCount, List.countP_cons] at this ⊢
        omega
      obtain ⟨T, hT, p1, p2, p3, p4, p5, plen, plo, phi, ppt⟩ :=
        ih (p + 1) table fuel
          (by simp only [List.length_cons] at hb; omega) hblen hrec
          (fun ob2 h2 => hcells ob2 (List.mem_cons_of_mem ob h2))
          (fun j hj => by
            have := hwin (j + 1) (by simpa using Nat.succ_lt_succ hj)
            rw [show p + 1 + j = p + (j + 1) by omega]
            exact this)
      refine ⟨T, by rw [hbody]; exact hT, p1, p2, p3, p4, p5, plen, ?_, ?_, ?_⟩
      · intro j hj
        exact plo j (by omega)
      · intro j hj
        simp only [List.length_cons] at hj
        exact phi j (by omega)
      · intro j ob2 hj
        rcases j with _ | j
        · simp at hj
          subst hj
          have h0 := hwin 0 (by simp)
          rw [Nat.add_zero] at h0
          rw [Nat.add_zero, plo p (by omega), hskip]
          exact h0
        · rw [show p + (j + 1) = p + 1 + j by omega]
          exact ppt j ob2 (by simpa using hj)
    · -- a real record
      rcases ob with _ | b
      · simp [stripCell] at hskip
      have hbe : b.emptyB = false := by
        simp only [stripCell] at hskip
        by_cases hbe : b.emptyB
        · rw [if_pos hbe] at hskip
          exact absurd rfl hskip
        · simpa using hbe
      obtain ⟨hdlen, hhlen, hclo, hchi⟩ := hcells (some b)
        (List.mem_cons_self _ _) b rfl
      have hplt : p < table.buckets.length := by
        simp only [List.length_cons] at hb
        omega
      obtain ⟨n, rfl⟩ : ∃ n, fuel = n + 1 := ⟨fuel - 1, by omega⟩
      have hbody : serializeBody p (some b :: rest)
          = (p % 65536 / 256) :: (p % 256) :: (intToU16 b.count % 65536 / 256)
            :: (intToU16 b.count % 256)
            :: (b.dataSum ++ (b.hashSum ++ serializeBody (p + 1) rest)) := by
        simp [serializeBody, hbe, u16be, List.append_assoc]
      have hpval : p % 65536 / 256 * 256 + p % 256 = p := by
        have : p < 65536 := by omega
        omega
      have hcval : intToU16 b.count % 65536 / 256 * 256 + intToU16 b.count % 256
          = intToU16 b.count := by
        have : intToU16 b.count < 65536 := by
          simp only [intToU16]
          omega
        omega
      have hstep : deserializeLoop D H (n + 1) table (serializeBody p (some b :: rest))
          = deserializeLoop D H n
            { table with buckets := table.buckets.set p (some b) }
            (serializeBody (p + 1) rest) := by
        rw [hbody]
        simp only [deserializeLoop, hpval, hcval]
        rw [if_pos hplt]
        have hds : (b.dataSum ++ (b.hashSum ++ serializeBody (p + 1) rest)).take D
            = b.dataSum := by
          rw [← hdlen]
          exact List.take_left _ _
        have hds2 : (b.dataSum ++ (b.hashSum ++ serializeBody (p + 1) rest)).drop D
            = b.hashSum ++ serializeBody (p + 1) rest := by
          rw [← hdlen]
          exact List.drop_left _ _
        have hhs : (b.hashSum ++ serializeBody (p + 1) rest).take H = b.hashSum := by
          rw [← hhlen]
          exact List.take_left _ _
        have hhs2 : (b.hashSum ++ serializeBody (p + 1) rest).drop H
            = serializeBody (p + 1) rest := by
          rw [← hhlen]
          exact List.drop_left _ _
        rw [hds, hds2, hhs, hhs2]
        have hbucket : ({
            dataSum := b.dataSum ++ List.replicate (D - b.dataSum.length) 0
            hashSum := b.hashSum ++ List.replicate (H - b.hashSum.length) 0
            count := int16val (intToU16 b.count) } : Bucket) = b := by
          rw [int16_round b.count hclo hchi, hdlen, hhlen]
          simp
        rw [hbucket]
      have hrec : recCount rest < n := by
        have : recCount (some b :: rest) < n + 1 := hfuel
        simp only [recCount, List.countP_cons, hbe] at this ⊢
        simp at this
        omega
      obtain ⟨T, hT, p1, p2, p3, p4, p5, plen, plo, phi, ppt⟩ :=
        ih (p + 1) { table with buckets := table.buckets.set p (some b) } n
          (by simp; simp at hb; omega) (by simpa using hblen) hrec
          (fun ob2 h2 => hcells ob2 (List.mem_cons_of_mem _ h2))
          (fun j hj => by
            show (table.buckets.set p (some b)).get? (p + 1 + j) = some none
            rw [List.get?_set_ne _ _ (by omega)]
            have := hwin (j + 1) (by simpa using Nat.succ_lt_succ hj)
            rw [show p + 1 + j = p + (j + 1) by omega]
            exact this)
      refine ⟨T, by rw [hstep]; exact hT, p1, p2, p3, p4, p5,
        by simpa using plen, ?_, ?_, ?_⟩
      · intro j hj
        rw [plo j (by omega)]
        show (table.buckets.set p (some b)).get? j = table.buckets.get? j
        rw [List.get?_set_ne _ _ (by omega)]
      · intro j hj
        simp only [List.length_cons] at hj
        rw [phi j (by omega)]
        show (table.buckets.set p (some b)).get? j = table.buckets.get? j
        rw [List.get?_set_ne _ _ (by omega)]
      · intro j ob2 hj
        rcases j with _ | j
        · simp at hj
          subst hj
          rw [Nat.add_zero, plo p (by omega)]
          show (table.buckets.set p (some b)).get? p = some (stripCell (some b))
          rw [List.get?_set_eq_of_lt _ hplt]
          simp only [stripCell, hbe]
          rw [if_neg (by simp [hbe])]
        · rw [show p + (j + 1) = p + 1 + j by omega]
          exact ppt j ob2 (by simpa using hj)

/-- C3 (amended): for a table whose parameters fit in 16 bits, whose cell
array length matches `BktNum`, whose cells have well-formed sum lengths and
counts that fit in a signed 16-bit value, the round trip
`Deserialize(Serialize t)` restores the parameters and every *non-empty*
cell exactly — but each present-but-all-zero cell comes back absent
(`stripCell`), so the absent-versus-all-zero distinction of the original
claim is lost (see the counterexample). -/
theorem serialize_roundtrip_strip (t : Table)
    (hB : t.BktNum < 65536) (hD : t.DataLen < 65536) (hH : t.HashLen < 65536)
    (hk : t.HashNum < 65536) (hlen : t.buckets.length = t.BktNum)
    (hcell : ∀ ob ∈ t.buckets, ∀ b, ob = some b →
      b.dataSum.length = t.DataLen ∧ b.hashSum.length = t.HashLen ∧
      -32768 ≤ b.count ∧ b.count < 32768) :
    ∃ T, Deserialize (Serialize t) = .ok T ∧
      T.BktNum = t.BktNum ∧ T.DataLen = t.DataLen ∧ T.HashLen = t.HashLen ∧
      T.HashNum = t.HashNum ∧ T.bitsSet = ∅ ∧
      T.buckets = t.buckets.map stripCell := by
  have hser : Serialize t = u16be t.BktNum ++ (u16be t.DataLen ++
      (u16be t.HashLen ++ (u16be t.HashNum ++ serializeBody 0 t.buckets))) := by
    simp [Serialize, List.append_assoc]
  have hrec : recCount t.buckets < (Serialize t).length + 1 := by
    have h1 := recCount_le_body t.buckets 0
    have h2 : (serializeBody 0 t.buckets).length ≤ (Serialize t).length := by
      rw [hser]
      simp [u16be]
      omega
    omega
  obtain ⟨T, hT, q1, q2, q3, q4, q5, qlen, _, _, qpt⟩ :=
    deserializeLoop_body t.DataLen t.HashLen t.buckets 0
      (NewTable t.BktNum t.DataLen t.HashLen t.HashNum)
      ((Serialize t).length + 1)
      (by simp [NewTable, hlen]) (by simp [NewTable]; exact hB) hrec
      hcell
      (by
        intro j hj
        show (List.replicate t.BktNum none).get? (0 + j) = some none
        rw [Nat.zero_add, List.get?_eq_getElem?]
        simp only [List.getElem?_replicate]
        rw [if_pos (by omega)])
  have hTlen : T.buckets.length = t.BktNum := by
    rw [qlen]
    simp [NewTable]
  refine ⟨T, ?_, q1, q2, q3, q4, q5, ?_⟩
  · unfold Deserialize
    rw [hser]
    simp only [readU16_u16be t.BktNum hB, readU16_u16be t.DataLen hD,
      readU16_u16be t.HashLen hH, readU16_u16be t.HashNum hk]
    rw [← hser]
    exact hT
  · apply List.ext_get?_iff.mpr
    intro n
    by_cases hn : n < t.buckets.length
    · rcases hg : t.buckets.get? n with _ | ob
      · rw [List.get?_eq_none] at hg
        omega
      · have := qpt n ob hg
        rw [Nat.zero_add] at this
        rw [this, List.get?_map, hg]
        rfl
    · rw [List.get?_eq_none.mpr, List.get?_eq_none.mpr]
      · simp only [List.length_map]
        omega
      · omega

/-- C3 counterexample: `Insert [0]` then `Delete [0]` on a fresh one-cell
table reaches a table with a present all-zero cell; its serialization holds
no record, so the round trip returns the cell as absent — the round trip is
not bucket-wise equal "including absent vs. all-zero cells". -/
theorem serialize_roundtrip_cex :
    (match Table.Insert (NewTable 1 1 1 1) [0] 64 with
     | .ok u => Table.Delete u [0] 64
     | r => r)
      = .ok ({
          BktNum := 1
          DataLen := 1
          HashLen := 1
          HashNum := 1
          buckets := [some { dataSum := [0], hashSum := [0], count := 0 }]
          bitsSet := {0} } : Table) ∧
    Deserialize (Serialize ({
          BktNum := 1
          DataLen := 1
          HashLen := 1
          HashNum := 1
          buckets := [some { dataSum := [0], hashSum := [0], count := 0 }]
          bitsSet := {0} } : Table))
      = .ok (NewTable 1 1 1 1) ∧
    ({
        BktNum := 1
        DataLen := 1
        HashLen := 1
        HashNum := 1
        buckets := [some { dataSum := [0], hashSum := [0], count := 0 }]
        bitsSet := {0} } : Table).buckets ≠ (NewTable 1 1 1 1).buckets := by
  refine ⟨rfl, rfl, by decide⟩

/-- Witness for C3 (amended) on a two-cell table with one non-empty cell
and one nil cell. -/
theorem serialize_roundtrip_strip_witness :
    ∃ T, Deserialize (Serialize ({
        BktNum := 2
        DataLen := 1
        HashLen := 1
        HashNum := 2
        buckets := [some { dataSum := [0], hashSum := [197], count := -1 }, none]
        bitsSet := ∅ } : Table)) = .ok T ∧
      T.BktNum = 2 ∧ T.DataLen = 1 ∧ T.HashLen = 1 ∧ T.HashNum = 2 ∧
      T.bitsSet = ∅ ∧
      T.buckets = [some { dataSum := [0], hashSum := [197], count := -1 },
        none].map stripCell :=
  serialize_roundtrip_strip ({
      BktNum := 2
      DataLen := 1
      HashLen := 1
      HashNum := 2
      buckets := [some { dataSum := [0], hashSum := [197], count := -1 }, none]
      bitsSet := ∅ } : Table)
    (by decide) (by decide) (by decide) (by decide) (by decide)
    (by
      intro ob hob b hb
      subst hb
      simp only [List.mem_cons, List.mem_singleton] at hob
      rcases hob with h1 | h1 | h1
      · cases h1
        refine ⟨rfl, rfl, by decide, by decide⟩
      · cases h1
      · simp at h1)

/-! ### C1: the repetitive-element path in Decode -/

/-- C1 (amended): when the decode loop dequeues a cell whose `encode`
reports a repetitive element, the element *is* removed from the opposite
set, but the error is not surfaced — `Decode` returns `(diff, nil)`, i.e. a
plain `ok`, immediately — and peeling stops: the table is returned as it
stood, without processing the remaining queue or reaching the normal loop
exit (which would have checked emptiness and reported dirty residue). -/
theorem decode_repetitive_behavior (t : Table) (diff : Diff) (i : Nat)
    (rest : List Nat) (b : Bucket) (ifuel fuel : Nat)
    (hcell : t.buckets.get? i = some (some b))
    (herr : ((diff.encode b).2).isSome = true) :
    decodeOuter ifuel t diff (i :: rest) (fuel + 1)
      = .ok (t, (diff.encode b).1) ∧
    (b.count = 1 → bsTest diff.Beta b.dataSum = true →
      (diff.encode b).1.Beta = bsDelete diff.Beta b.dataSum ∧
      (diff.encode b).1.Alpha = diff.Alpha) ∧
    (b.count = -1 → bsTest diff.Alpha b.dataSum = true →
      (diff.encode b).1.Alpha = bsDelete diff.Alpha b.dataSum ∧
      (diff.encode b).1.Beta = diff.Beta) := by
  refine ⟨?_, ?_, ?_⟩
  · rcases hsome : (diff.encode b).2 with _ | msg
    · rw [hsome] at herr
      simp at herr
    · have hinner : decodeInner ifuel t diff (i :: rest)
          = .stop t (diff.encode b).1 := by
        simp only [decodeInner, hcell]
        rw [hsome]
      simp only [decodeOuter]
      rw [hinner]
  · intro h1 hmem
    simp only [Diff.encode]
    rw [if_pos h1, if_pos hmem]
    exact ⟨rfl, rfl⟩
  · intro h1 hmem
    have hne : ¬ b.count = 1 := by
      rw [h1]
      decide
    simp only [Diff.encode]
    rw [if_neg hne, if_pos h1, if_pos hmem]
    exact ⟨rfl, rfl⟩

/-- Witness for C1 (amended) at a concrete one-cell queue state whose
element is already in β. -/
theorem decode_repetitive_behavior_witness :
    decodeOuter 4 ({
        BktNum := 1
        DataLen := 1
        HashLen := 1
        HashNum := 1
        buckets := [some { dataSum := [0], hashSum := [197], count := 1 }]
        bitsSet := ∅ } : Table) { Alpha := [], Beta := [[0]] } (0 :: []) (3 + 1)
      = .ok (({
          BktNum := 1
          DataLen := 1
          HashLen := 1
          HashNum := 1
          buckets := [some { dataSum := [0], hashSum := [197], count := 1 }]
          bitsSet := ∅ } : Table),
        (Diff.encode { Alpha := [], Beta := [[0]] }
          { dataSum := [0], hashSum := [197], count := 1 }).1) :=
  (decode_repetitive_behavior ({
      BktNum := 1
      DataLen := 1
      HashLen := 1
      HashNum := 1
      buckets := [some { dataSum := [0], hashSum := [197], count := 1 }]
      bitsSet := ∅ } : Table) { Alpha := [], Beta := [[0]] } 0 []
    { dataSum := [0], hashSum := [197], count := 1 } 4 3
    (by decide) (by decide)).1

/-- C1 counterexample: a full `Decode` run on `repTable` hits the
repetitive-element case and returns `.ok` with an *empty* diff and a
*non-empty* table: the condition was not surfaced to the caller (no error is
returned), and peeling did not continue to the normal loop exit (which would
have emptied the table or returned the dirty-entries error). -/
theorem decode_swallow_cex :
    Decode repTable 64 8
      = .ok (({
          BktNum := 2
          DataLen := 1
          HashLen := 1
          HashNum := 2
          buckets := [some { dataSum := [0], hashSum := [0], count := 0 },
            some { dataSum := [0], hashSum := [197], count := 1 }]
          bitsSet := {1, 0} } : Table), { Alpha := [], Beta := [] }) ∧
    Table.empty ({
        BktNum := 2
        DataLen := 1
        HashLen := 1
        HashNum := 2
        buckets := [some { dataSum := [0], hashSum := [0], count := 0 },
          some { dataSum := [0], hashSum := [197], count := 1 }]
        bitsSet := {1, 0} } : Table) = false := by
  refine ⟨by decide, by decide⟩

end IBLT
